import Mathlib

/-!
Verification of `recipe_finder.py`, an ingredient-based recipe finder.

Modelling conventions (shallow embedding):

* Python strings are modelled as `List ℕ` of character codepoints (`PyStr`);
  the helper `pystr` converts a Lean string literal to this representation.
  `str.strip` is modelled by `pystrip` (ASCII whitespace), `str.lower` by
  `pylower` (ASCII case folding), `str.split(",")` by `List.splitOn 44`
  (44 is the codepoint of `','`).
* Python floats are modelled as exact rationals `ℚ`.  The division
  `matched / total if total else 0.0` is modelled by `mkRat matched total`
  (note `mkRat n 0 = 0`, matching the guard).  Python's `round(x, 3)`
  (round half to even, at 3 decimal places) is modelled by `round3`, and
  `int(x)` (truncation towards zero) by `pyTrunc`.
* Python's stable `list.sort(key=...)` with key
  `(-score, -matched, name)` is modelled by the stable `List.mergeSort`
  with the boolean comparison `entryLE` encoding exactly that key order.
* The match-result dict built by `find_matches` is modelled by the
  structure `Entry`; the returned dict with keys `"full_matches"` and
  `"partial_matches"` is modelled as a pair (first component: full,
  second component: the other, partially matched list).
* `print` output is modelled as a list of printed lines (`List PyStr`);
  `main` is modelled by `mainRun`, taking the optional command line
  argument and the line read from standard input, and returning the
  printed lines together with the process exit code.
-/

namespace RecipeFinder

/-- Python strings are modelled as lists of character codepoints. -/
abbrev PyStr : Type := List Nat

/-- Convert a Lean string literal to its codepoint-list model. -/
def pystr (s : String) : PyStr := s.data.map Char.toNat

/-- ASCII whitespace, the characters removed by Python's `str.strip()`. -/
def isSpace (c : Nat) : Bool :=
  decide (c = 32 ∨ c = 9 ∨ c = 10 ∨ c = 11 ∨ c = 12 ∨ c = 13)

/-- Lower-case one codepoint, as Python's `str.lower()` does on ASCII. -/
def lowerChar (c : Nat) : Nat :=
  if 65 ≤ c ∧ c ≤ 90 then c + 32 else c

/-- Model of Python `s.lower()`. -/
def pylower (s : PyStr) : PyStr := s.map lowerChar

/-- Remove trailing whitespace (the right half of Python `s.strip()`). -/
def rstrip (s : PyStr) : PyStr := (s.reverse.dropWhile isSpace).reverse

/-- Model of Python `s.strip()`: remove leading and trailing whitespace. -/
def pystrip (s : PyStr) : PyStr := rstrip (s.dropWhile isSpace)

/-- Model of `normalize` in `recipe_finder.py`: `ing.strip().lower()`. -/
def normalize (ing : PyStr) : PyStr := pylower (pystrip ing)

/-- Model of `parse_input` in `recipe_finder.py`:
`parts = [p.strip() for p in arg.split(",") if p.strip()]` followed by
`[normalize(p) for p in parts]`.  Codepoint 44 is `','`. -/
def parse_input (arg : PyStr) : List PyStr :=
  (((arg.splitOn 44).map pystrip).filter (fun p => !p.isEmpty)).map normalize

-- Basic facts about the character-level operations.

theorem lowerChar_idem (c : Nat) : lowerChar (lowerChar c) = lowerChar c := by
  unfold lowerChar
  by_cases h : 65 ≤ c ∧ c ≤ 90
  · rw [if_pos h, if_neg (by omega)]
  · rw [if_neg h, if_neg h]

theorem isSpace_lowerChar (c : Nat) : isSpace (lowerChar c) = isSpace c := by
  unfold lowerChar isSpace
  by_cases h : 65 ≤ c ∧ c ≤ 90
  · rw [if_pos h]
    simp only [decide_eq_decide]
    omega
  · rw [if_neg h]

theorem pylower_idem (s : PyStr) : pylower (pylower s) = pylower s := by
  simp only [pylower, List.map_map]
  exact List.map_congr_left fun c _ => lowerChar_idem c

-- Facts about `dropWhile` needed for `pystrip`.

theorem dropWhile_dropWhile {α : Type} (p : α → Bool) (l : List α) :
    List.dropWhile p (List.dropWhile p l) = List.dropWhile p l := by
  induction l with
  | nil => rfl
  | cons x xs ih =>
    by_cases hp : p x <;> simp [List.dropWhile_cons, hp, ih]

theorem dropWhile_rstrip {s : PyStr} (h : s.dropWhile isSpace = s) :
    (rstrip s).dropWhile isSpace = rstrip s := by
  cases s with
  | nil => rfl
  | cons x xs =>
    have hx : ¬ isSpace x = true := by
      rw [List.dropWhile_eq_self_iff] at h
      simpa using h (by simp)
    have hcons : ∃ rest, rstrip (x :: xs) = x :: rest := by
      unfold rstrip
      rw [List.reverse_cons, List.dropWhile_append]
      split
      · exact ⟨[], by simp [List.dropWhile_cons, hx]⟩
      · exact ⟨(List.dropWhile isSpace xs.reverse).reverse, by
          simp [List.reverse_append]⟩
    rcases hcons with ⟨rest, hr⟩
    rw [hr]
    simp [List.dropWhile_cons, hx]

theorem rstrip_rstrip (s : PyStr) : rstrip (rstrip s) = rstrip s := by
  simp [rstrip, dropWhile_dropWhile]

theorem pystrip_idem (s : PyStr) : pystrip (pystrip s) = pystrip s := by
  unfold pystrip
  rw [dropWhile_rstrip (dropWhile_dropWhile isSpace s), rstrip_rstrip]

theorem dropWhile_pylower (s : PyStr) :
    (pylower s).dropWhile isSpace = pylower (s.dropWhile isSpace) := by
  simp only [pylower, List.dropWhile_map]
  rw [show (isSpace ∘ lowerChar) = isSpace from funext isSpace_lowerChar]

theorem rstrip_pylower (s : PyStr) : rstrip (pylower s) = pylower (rstrip s) := by
  simp only [rstrip, pylower, ← List.map_reverse, List.dropWhile_map]
  rw [show (isSpace ∘ lowerChar) = isSpace from funext isSpace_lowerChar]

theorem pystrip_pylower (s : PyStr) :
    pystrip (pylower s) = pylower (pystrip s) := by
  unfold pystrip
  rw [dropWhile_pylower, rstrip_pylower]

theorem normalize_idem (s : PyStr) : normalize (normalize s) = normalize s := by
  unfold normalize
  rw [pystrip_pylower, pystrip_idem, pylower_idem]

theorem normalize_pystrip (s : PyStr) : normalize (pystrip s) = pylower (pystrip s) := by
  unfold normalize
  rw [pystrip_idem]

theorem pylower_length (s : PyStr) : (pylower s).length = s.length := by
  simp [pylower]

/-- A recipe record: `{"name": ..., "ingredients": [...]}`. -/
structure Recipe where
  name : PyStr
  ingredients : List PyStr
deriving DecidableEq

/-- A match-result entry, the dict built inside `find_matches`:
`{"name", "matched", "total", "score", "missing", "ingredients"}`.
The `score` field holds the 3-decimal rounded value `round(score, 3)`. -/
structure Entry where
  name : PyStr
  matched : Nat
  total : Nat
  score : ℚ
  missing : Nat
  ingredients : List PyStr
deriving DecidableEq

/-- The sample recipe database `SAMPLE_RECIPES` of `recipe_finder.py`. -/
def SAMPLE_RECIPES : List Recipe :=
  [⟨pystr "Pancakes",
     [pystr "flour", pystr "milk", pystr "egg", pystr "baking powder",
      pystr "salt", pystr "butter"]⟩,
   ⟨pystr "Omelette",
     [pystr "egg", pystr "salt", pystr "pepper", pystr "butter", pystr "onion"]⟩,
   ⟨pystr "Tomato Pasta",
     [pystr "pasta", pystr "tomato", pystr "garlic", pystr "olive oil",
      pystr "salt", pystr "basil"]⟩,
   ⟨pystr "Grilled Cheese", [pystr "bread", pystr "cheese", pystr "butter"]⟩,
   ⟨pystr "Veggie Salad",
     [pystr "lettuce", pystr "tomato", pystr "cucumber", pystr "olive oil",
      pystr "salt", pystr "lemon"]⟩,
   ⟨pystr "French Toast",
     [pystr "bread", pystr "egg", pystr "milk", pystr "butter", pystr "cinnamon"]⟩]

/-- Model of `total = len(r_ings)` where `r_ings = [normalize(i) for i in recipe["ingredients"]]`. -/
def totalCount (r : Recipe) : Nat := (r.ingredients.map normalize).length

/-- Model of `matched = sum(1 for i in r_ings if i in available_set)`: the number of
(normalized) recipe ingredients that are members of the available set.
List membership models Python set membership (duplicates are irrelevant). -/
def matchedCount (available : List PyStr) (r : Recipe) : Nat :=
  (r.ingredients.map normalize).countP (fun i => decide (i ∈ available))

/-- Model of `score_recipe`: returns `(score, matched, total)` where
`score = matched / total if total else 0.0`, as an exact rational. -/
def score_recipe (available : List PyStr) (r : Recipe) : ℚ × Nat × Nat :=
  (if totalCount r = 0 then 0
     else mkRat (matchedCount available r) (totalCount r),
   matchedCount available r, totalCount r)

/-- Round the integer fraction `a / b` (with `b` a positive natural) to the
nearest integer, ties to even — the rounding used by Python's `round`. -/
def halfEvenDiv (a : ℤ) (b : ℕ) : ℤ :=
  let f := a.fdiv b
  let r := a - f * b
  if 2 * r < (b : ℤ) then f
  else if (b : ℤ) < 2 * r then f + 1
  else if f % 2 = 0 then f else f + 1

/-- Model of Python `round(q, 3)` on exact rationals: round half to even at
the third decimal place. -/
def round3 (q : ℚ) : ℚ := mkRat (halfEvenDiv (1000 * q.num) q.den) 1000

/-- The entry dict built for one recipe inside the `find_matches` loop. -/
def mkEntry (available : List PyStr) (r : Recipe) : Entry :=
  { name := r.name
    matched := (score_recipe available r).2.1
    total := (score_recipe available r).2.2
    score := round3 (score_recipe available r).1
    missing := (score_recipe available r).2.2 - (score_recipe available r).2.1
    ingredients := r.ingredients }

/-- Lexicographic `≤` on codepoint strings, Python's string comparison. -/
def pystrLE : PyStr → PyStr → Bool
  | [], _ => true
  | _ :: _, [] => false
  | a :: as, b :: bs =>
    if a < b then true else if b < a then false else pystrLE as bs

/-- Ascending comparison of the Python sort keys
`(-x["score"], -x["matched"], x["name"])`: descending by rounded score,
then descending by matched count, then ascending by name. -/
def entryLE (x y : Entry) : Bool :=
  decide (y.score < x.score) ||
  (decide (x.score = y.score) &&
    (decide (y.matched < x.matched) ||
      (decide (x.matched = y.matched) && pystrLE x.name y.name)))

/-- Model of `find_matches`: classify every recipe (full iff
`matched == total`, else partially matched iff `matched > 0`, else dropped)
and sort both lists with the key `(-score, -matched, name)`.  The stable
`mergeSort` models Python's stable `list.sort`. -/
def find_matches (available : List PyStr) (recipes : List Recipe) :
    List Entry × List Entry :=
  let full := (recipes.filter (fun r =>
    decide ((score_recipe available r).2.1 = (score_recipe available r).2.2))).map
      (mkEntry available)
  let rest := (recipes.filter (fun r =>
    !decide ((score_recipe available r).2.1 = (score_recipe available r).2.2) &&
      decide (0 < (score_recipe available r).2.1))).map (mkEntry available)
  (full.mergeSort entryLE, rest.mergeSort entryLE)

/-- Decimal rendering of a natural number, as Python's f-string does. -/
def natRepr (n : Nat) : PyStr := (Nat.toDigits 10 n).map Char.toNat

/-- Decimal rendering of an integer (codepoint 45 is `'-'`). -/
def intRepr (n : ℤ) : PyStr :=
  if n < 0 then 45 :: natRepr n.natAbs else natRepr n.natAbs

/-- Model of Python `int(q)`: truncation towards zero. -/
def pyTrunc (q : ℚ) : ℤ := q.num.tdiv q.den

/-- Model of `int(r["score"] * 100)`, the percentage of `pretty_print`. -/
def pctOf (q : ℚ) : ℤ := pyTrunc (q * 100)

/-- Model of `", ".join(l)`. -/
def joinComma (l : List PyStr) : PyStr := List.intercalate (pystr ", ") l

/-- The line printed for one full match:
`- {name} (matches: {matched}/{total})`. -/
def full_line (e : Entry) : PyStr :=
  pystr "- " ++ e.name ++ pystr " (matches: " ++ natRepr e.matched ++
    pystr "/" ++ natRepr e.total ++ pystr ")"

/-- The first line printed for one partially matched recipe:
`- {name}: {pct}% ({matched}/{total}) -- missing {missing} ingredient(s)`. -/
def part_line1 (e : Entry) : PyStr :=
  pystr "- " ++ e.name ++ pystr ": " ++ intRepr (pctOf e.score) ++
    pystr "% (" ++ natRepr e.matched ++ pystr "/" ++ natRepr e.total ++
    pystr ") -- missing " ++ natRepr e.missing ++ pystr " ingredient(s)"

/-- The second line printed for one partially matched recipe:
`    Ingredients: {", ".join(r["ingredients"])}`. -/
def part_line2 (e : Entry) : PyStr :=
  pystr "    Ingredients: " ++ joinComma e.ingredients

/-- Model of `pretty_print`: the sequence of printed lines. -/
def pretty_print (result : List Entry × List Entry) : List PyStr :=
  pystr "\n=== Full matches (you can fully make these) ===" ::
    ((if result.1.isEmpty then [pystr "No full matches found."]
      else result.1.map full_line) ++
     (pystr "\n=== Partial matches (ranked) ===" ::
      (if result.2.isEmpty then [pystr "No partial matches found."]
       else result.2.flatMap (fun e => [part_line1 e, part_line2 e]))))

/-- The `user_input` value: the first command line argument when present, otherwise
the line read from standard input after the prompt. -/
def resolveInput (arg : Option PyStr) (line : PyStr) : PyStr := arg.getD line

/-- Model of `main`: returns the printed lines (not counting the
interactive prompt written by `input`) and the process exit code.  The
script always terminates normally, so the exit code is 0 in both branches. -/
def mainRun (arg : Option PyStr) (line : PyStr) : List PyStr × Nat :=
  let available := parse_input (resolveInput arg line)
  if available.isEmpty then
    ([pystr "No ingredients provided. Exiting."], 0)
  else
    ((pystr "Available (normalized): " ++ joinComma available) ::
      pretty_print (find_matches available SAMPLE_RECIPES), 0)

/-- The `Pancakes` recipe from the sample database (used in concrete tests). -/
def pancakes : Recipe :=
  ⟨pystr "Pancakes",
    [pystr "flour", pystr "milk", pystr "egg", pystr "baking powder",
     pystr "salt", pystr "butter"]⟩

/-- The `Omelette` recipe from the sample database. -/
def omelette : Recipe :=
  ⟨pystr "Omelette",
    [pystr "egg", pystr "salt", pystr "pepper", pystr "butter", pystr "onion"]⟩

/-- A recipe that lists the same ingredient twice (the catalog is a function
argument, so any recipe list can be supplied). -/
def doubleEgg : Recipe := ⟨pystr "Double Egg", [pystr "egg", pystr "egg"]⟩

/-- A recipe with no ingredients, for the `total == 0` edge case. -/
def emptyRecipe : Recipe := ⟨pystr "Water", []⟩

/-- The available list `["egg", "milk"]` used by the spec's Pancakes example. -/
def availEggMilk : List PyStr := [pystr "egg", pystr "milk"]

-- Helper lemmas about scoring and classification.

theorem matched_le_total (a : List PyStr) (r : Recipe) :
    matchedCount a r ≤ totalCount r :=
  List.countP_le_length _

theorem mem_full_iff (a : List PyStr) (rs : List Recipe) (e : Entry) :
    e ∈ (find_matches a rs).1 ↔
      ∃ r, r ∈ rs ∧ matchedCount a r = totalCount r ∧ mkEntry a r = e := by
  simp only [find_matches, List.mem_mergeSort, List.mem_map, List.mem_filter,
    decide_eq_true_eq]
  constructor
  · rintro ⟨r, ⟨hr, hp⟩, he⟩
    exact ⟨r, hr, by simpa [score_recipe] using hp, he⟩
  · rintro ⟨r, hr, hp, he⟩
    exact ⟨r, ⟨hr, by simpa [score_recipe] using hp⟩, he⟩

theorem mem_rest_iff (a : List PyStr) (rs : List Recipe) (e : Entry) :
    e ∈ (find_matches a rs).2 ↔
      ∃ r, r ∈ rs ∧ (matchedCount a r ≠ totalCount r ∧ 0 < matchedCount a r) ∧
        mkEntry a r = e := by
  simp only [find_matches, List.mem_mergeSort, List.mem_map, List.mem_filter,
    Bool.and_eq_true, Bool.not_eq_eq_eq_not, Bool.not_true, decide_eq_false_iff_not,
    decide_eq_true_eq]
  constructor
  · rintro ⟨r, ⟨hr, hp, hq⟩, he⟩
    exact ⟨r, hr, ⟨by simpa [score_recipe] using hp, by simpa [score_recipe] using hq⟩, he⟩
  · rintro ⟨r, hr, ⟨hp, hq⟩, he⟩
    exact ⟨r, ⟨hr, by simpa [score_recipe] using hp, by simpa [score_recipe] using hq⟩, he⟩

-- The composite sort-key order and its basic properties.

/-- The composite sort-key order of the spec: primary descending by the
rounded score, secondary descending by matched count, tertiary ascending by
recipe name (case-sensitive lexicographic). -/
def keyOrder (x y : Entry) : Prop :=
  y.score < x.score ∨
    (x.score = y.score ∧
      (y.matched < x.matched ∨
        (x.matched = y.matched ∧ pystrLE x.name y.name = true)))

theorem entryLE_iff (x y : Entry) : entryLE x y = true ↔ keyOrder x y := by
  simp [entryLE, keyOrder]

theorem pystrLE_total (s : PyStr) : ∀ t, (pystrLE s t || pystrLE t s) = true := by
  induction s with
  | nil => intro t; simp [pystrLE]
  | cons a as ih =>
    intro t
    cases t with
    | nil => simp [pystrLE]
    | cons b bs =>
      rcases Nat.lt_trichotomy a b with h | h | h
      · simp [pystrLE, h]
      · subst h
        simpa [pystrLE, Nat.lt_irrefl] using ih bs
      · simp [pystrLE, h, Nat.lt_asymm h]

theorem pystrLE_trans :
    ∀ s t u : PyStr, pystrLE s t = true → pystrLE t u = true →
      pystrLE s u = true := by
  intro s
  induction s with
  | nil => intro t u _ _; simp [pystrLE]
  | cons a as ih =>
    intro t u hst htu
    cases t with
    | nil => simp [pystrLE] at hst
    | cons b bs =>
      cases u with
      | nil => simp [pystrLE] at htu
      | cons c cs =>
        rcases Nat.lt_trichotomy a b with h1 | h1 | h1
        · rcases Nat.lt_trichotomy b c with h2 | h2 | h2
          · simp [pystrLE, Nat.lt_trans h1 h2]
          · subst h2; simp [pystrLE, h1]
          · simp [pystrLE, show ¬ b < c by omega, h2] at htu
        · subst h1
          rcases Nat.lt_trichotomy a c with h2 | h2 | h2
          · simp [pystrLE, h2]
          · subst h2
            simp only [pystrLE, Nat.lt_irrefl, if_false] at hst htu ⊢
            exact ih bs cs hst htu
          · simp [pystrLE, show ¬ a < c by omega, h2] at htu
        · simp [pystrLE, show ¬ a < b by omega, h1] at hst

theorem keyOrder_trans {x y z : Entry} (hxy : keyOrder x y) (hyz : keyOrder y z) :
    keyOrder x z := by
  rcases hxy with h | ⟨he, h⟩
  · rcases hyz with g | ⟨ge, g⟩
    · exact Or.inl (lt_trans g h)
    · exact Or.inl (ge ▸ h)
  · rcases hyz with g | ⟨ge, g⟩
    · exact Or.inl (he ▸ g)
    · refine Or.inr ⟨he.trans ge, ?_⟩
      rcases h with h | ⟨hme, h⟩
      · rcases g with g | ⟨gme, g⟩
        · exact Or.inl (Nat.lt_trans g h)
        · exact Or.inl (gme ▸ h)
      · rcases g with g | ⟨gme, g⟩
        · exact Or.inl (hme ▸ g)
        · exact Or.inr ⟨hme.trans gme, pystrLE_trans _ _ _ h g⟩

theorem entryLE_trans (x y z : Entry) (hxy : entryLE x y = true)
    (hyz : entryLE y z = true) : entryLE x z = true :=
  (entryLE_iff x z).mpr (keyOrder_trans ((entryLE_iff x y).mp hxy) ((entryLE_iff y z).mp hyz))

theorem entryLE_total (x y : Entry) : (entryLE x y || entryLE y x) = true := by
  rcases lt_trichotomy x.score y.score with h | h | h
  · have : entryLE y x = true := (entryLE_iff y x).mpr (Or.inl h)
    simp [this]
  · rcases Nat.lt_trichotomy x.matched y.matched with g | g | g
    · have : entryLE y x = true := (entryLE_iff y x).mpr (Or.inr ⟨h.symm, Or.inl g⟩)
      simp [this]
    · rcases Bool.eq_false_or_eq_true (pystrLE x.name y.name) with hn | hn
      · have : entryLE x y = true := (entryLE_iff x y).mpr (Or.inr ⟨h, Or.inr ⟨g, hn⟩⟩)
        simp [this]
      · have hyx : pystrLE y.name x.name = true := by
          have := pystrLE_total x.name y.name
          rw [hn] at this
          simpa using this
        have : entryLE y x = true :=
          (entryLE_iff y x).mpr (Or.inr ⟨h.symm, Or.inr ⟨g.symm, hyx⟩⟩)
        simp [this]
    · have : entryLE x y = true := (entryLE_iff x y).mpr (Or.inr ⟨h, Or.inl g⟩)
      simp [this]
  · have : entryLE x y = true := (entryLE_iff x y).mpr (Or.inl h)
    simp [this]

-- Numeric helper lemmas.

theorem score_fst_eq_div (a : List PyStr) (r : Recipe) :
    (score_recipe a r).1 = (matchedCount a r : ℚ) / (totalCount r : ℚ) := by
  unfold score_recipe
  by_cases h0 : totalCount r = 0
  · have hm : matchedCount a r = 0 := by
      have := matched_le_total a r
      omega
    simp [h0, hm]
  · simp only [if_neg h0]
    rw [Rat.mkRat_eq_div]
    push_cast
    ring

theorem score_fst_nonneg (a : List PyStr) (r : Recipe) :
    0 ≤ (score_recipe a r).1 := by
  rw [score_fst_eq_div]
  positivity

theorem halfEvenDiv_nonneg {a : ℤ} (b : ℕ) (ha : 0 ≤ a) :
    0 ≤ halfEvenDiv a b := by
  have hf : 0 ≤ a.fdiv b := Int.fdiv_nonneg ha (Int.natCast_nonneg b)
  simp only [halfEvenDiv]
  split_ifs <;> omega

theorem round3_nonneg {q : ℚ} (hq : 0 ≤ q) : 0 ≤ round3 q :=
  Rat.mkRat_nonneg
    (halfEvenDiv_nonneg q.den
      (mul_nonneg (by norm_num) (Rat.num_nonneg.mpr hq))) 1000

theorem pyTrunc_eq_floor {q : ℚ} (hq : 0 ≤ q) : pyTrunc q = ⌊q⌋ := by
  unfold pyTrunc
  rw [Rat.floor_def]
  exact Int.tdiv_eq_ediv (Rat.num_nonneg.mpr hq) (Int.natCast_nonneg q.den)

/-- C1: for every available-ingredient list, catalog and catalog recipe, the
recipe's entry is in the full list iff `matched = total` (vacuously including
`total = 0`), in the partially-matched list iff `0 < matched < total`, and in
neither list iff `matched = 0` with `total > 0` — exactly one of the three. -/
theorem C1_classification (a : List PyStr) (rs : List Recipe) (r : Recipe)
    (h : r ∈ rs) :
    (mkEntry a r ∈ (find_matches a rs).1 ↔ matchedCount a r = totalCount r) ∧
    (mkEntry a r ∈ (find_matches a rs).2 ↔
      0 < matchedCount a r ∧ matchedCount a r < totalCount r) ∧
    ((mkEntry a r ∉ (find_matches a rs).1 ∧ mkEntry a r ∉ (find_matches a rs).2) ↔
      (matchedCount a r = 0 ∧ 0 < totalCount r)) := by
  have hle := matched_le_total a r
  have hfull : mkEntry a r ∈ (find_matches a rs).1 ↔
      matchedCount a r = totalCount r := by
    rw [mem_full_iff]
    constructor
    · rintro ⟨r', hr', hp, he⟩
      have hm : matchedCount a r' = matchedCount a r := congrArg Entry.matched he
      have ht : totalCount r' = totalCount r := congrArg Entry.total he
      omega
    · intro hp
      exact ⟨r, h, hp, rfl⟩
  have hrest : mkEntry a r ∈ (find_matches a rs).2 ↔
      0 < matchedCount a r ∧ matchedCount a r < totalCount r := by
    rw [mem_rest_iff]
    constructor
    · rintro ⟨r', hr', ⟨hp, hq⟩, he⟩
      have hm : matchedCount a r' = matchedCount a r := congrArg Entry.matched he
      have ht : totalCount r' = totalCount r := congrArg Entry.total he
      have hle' := matched_le_total a r'
      omega
    · intro hp
      exact ⟨r, h, ⟨by omega, by omega⟩, rfl⟩
  refine ⟨hfull, hrest, ?_⟩
  rw [hfull, hrest]
  omega

/-- Witness for C1 at available `["egg"]` and catalog `[Omelette]`
(`matched = 1`, `total = 5`, a partially matched recipe). -/
theorem C1_classification_witness :
    omelette ∈ [omelette] ∧
    ((mkEntry [pystr "egg"] omelette ∈ (find_matches [pystr "egg"] [omelette]).1 ↔
        matchedCount [pystr "egg"] omelette = totalCount omelette) ∧
     (mkEntry [pystr "egg"] omelette ∈ (find_matches [pystr "egg"] [omelette]).2 ↔
        0 < matchedCount [pystr "egg"] omelette ∧
          matchedCount [pystr "egg"] omelette < totalCount omelette) ∧
     ((mkEntry [pystr "egg"] omelette ∉ (find_matches [pystr "egg"] [omelette]).1 ∧
       mkEntry [pystr "egg"] omelette ∉ (find_matches [pystr "egg"] [omelette]).2) ↔
        (matchedCount [pystr "egg"] omelette = 0 ∧ 0 < totalCount omelette))) :=
  ⟨by decide, C1_classification [pystr "egg"] [omelette] omelette (by decide)⟩

/-- C2: both output lists of `find_matches` are sorted by the composite key:
descending by the rounded 3-decimal score, then descending by matched count,
then ascending by recipe name (case-sensitive lexicographic); in particular
two entries tied on score and matched count appear in ascending name order. -/
theorem C2_sorted (a : List PyStr) (rs : List Recipe) :
    (find_matches a rs).1.Pairwise keyOrder ∧
    (find_matches a rs).2.Pairwise keyOrder := by
  constructor <;>
    exact List.Pairwise.imp (fun h => (entryLE_iff _ _).mp h)
      (List.sorted_mergeSort entryLE_trans entryLE_total _)

-- Counting matched ingredients by position.

theorem countP_eq_positions {α : Type} (p : α → Bool) (d : α) :
    ∀ l : List α,
      l.countP p =
        ((List.range l.length).filter (fun i => p (l.getD i d))).length := by
  intro l
  induction l with
  | nil => rfl
  | cons x xs ih =>
    rw [List.countP_cons, List.length_cons, List.range_succ_eq_map,
      List.filter_cons]
    simp only [List.getD_cons_zero, List.filter_map, List.length_map]
    have hcomp :
        ((fun i => p ((x :: xs).getD i d)) ∘ Nat.succ) = fun i => p (xs.getD i d) := by
      funext i
      simp [List.getD_cons_succ]
    rw [show (List.filter ((fun i => p ((x :: xs).getD i d)) ∘ Nat.succ)
        (List.range xs.length)) = List.filter (fun i => p (xs.getD i d))
        (List.range xs.length) from by rw [hcomp]]
    by_cases hp : p x <;> simp [hp, ih]

/-- The number of positions `i` in the recipe's ingredient list whose
normalized ingredient is a member of the available set. -/
def posMatched (available : List PyStr) (r : Recipe) : Nat :=
  ((List.range r.ingredients.length).filter
    (fun i => decide (normalize (r.ingredients.getD i []) ∈ available))).length

/-- C3: `score_recipe` returns `matched` = the number of positions whose
normalized ingredient is available (duplicates counted independently),
`total` = the length of the recipe's ingredient list, and
`score = matched / total`; concretely, available `["egg", "milk"]` against
Pancakes gives `matched = 2`, `total = 6`, raw score `2/6`, and the
resulting entry is a partially matched one with rounded score
`0.333 = 333/1000` and `missing = 4`; a recipe listing `"egg"` twice
against available `["egg"]` scores `matched = 2`, `total = 2`. -/
theorem C3_scoring :
    (∀ (a : List PyStr) (r : Recipe),
      score_recipe a r =
        ((posMatched a r : ℚ) / (r.ingredients.length : ℚ),
         posMatched a r, r.ingredients.length)) ∧
    score_recipe availEggMilk pancakes = (mkRat 2 6, 2, 6) ∧
    mkRat 2 6 = (2 : ℚ) / 6 ∧
    mkEntry availEggMilk pancakes ∈ (find_matches availEggMilk SAMPLE_RECIPES).2 ∧
    (mkEntry availEggMilk pancakes).score = mkRat 333 1000 ∧
    (mkEntry availEggMilk pancakes).missing = 4 ∧
    score_recipe [pystr "egg"] doubleEgg = (mkRat 2 2, 2, 2) := by
  refine ⟨?_, by decide, ?_, ?_, by decide, by decide, by decide⟩
  · intro a r
    have hm : matchedCount a r = posMatched a r := by
      unfold matchedCount posMatched
      rw [List.countP_map, countP_eq_positions _ ([] : PyStr)]
      rfl
    have ht : totalCount r = r.ingredients.length := by simp [totalCount]
    have hs : (if totalCount r = 0 then (0 : ℚ)
        else mkRat (matchedCount a r) (totalCount r)) =
        (matchedCount a r : ℚ) / (totalCount r : ℚ) := score_fst_eq_div a r
    unfold score_recipe
    rw [hs, hm, ht]
  · rw [Rat.mkRat_eq_div]
    norm_num
  · simp only [find_matches]
    rw [List.mem_mergeSort]
    decide

/-- C4: a recipe with no ingredients never divides by zero: its score triple
is `(0.0, 0, 0)`, and `find_matches` classifies it as a full match. -/
theorem C4_empty_ingredients (a : List PyStr) (rs : List Recipe) (r : Recipe)
    (h : r ∈ rs) (h0 : r.ingredients = []) :
    score_recipe a r = (0, 0, 0) ∧ mkEntry a r ∈ (find_matches a rs).1 := by
  have ht : totalCount r = 0 := by simp [totalCount, h0]
  have hm : matchedCount a r = 0 := by simp [matchedCount, h0]
  constructor
  · simp [score_recipe, ht, hm]
  · rw [mem_full_iff]
    exact ⟨r, h, by omega, rfl⟩

/-- Witness for C4 at the zero-ingredient recipe `Water` and empty
availability. -/
theorem C4_empty_ingredients_witness :
    (emptyRecipe ∈ [emptyRecipe] ∧ emptyRecipe.ingredients = []) ∧
    (score_recipe [] emptyRecipe = (0, 0, 0) ∧
      mkEntry [] emptyRecipe ∈ (find_matches [] [emptyRecipe]).1) :=
  ⟨⟨by decide, by decide⟩, C4_empty_ingredients [] [emptyRecipe] emptyRecipe
    (by decide) (by decide)⟩

/-- The Input Parser as the spec words it: split on `','`, trim each piece,
discard pieces that are empty after trimming, lower-case the rest. -/
def parseSpec (arg : PyStr) : List PyStr :=
  (((arg.splitOn 44).map pystrip).filter (fun p => !p.isEmpty)).map pylower

/-- C5: `parse_input` splits on `','`, trims, discards empty-after-trim
pieces and lower-cases the rest, preserving order and duplicates; in
particular `parse_input("Eggs, MILK ,Tomato") = ["eggs", "milk", "tomato"]`. -/
theorem C5_parse :
    (∀ s : PyStr, parse_input s = parseSpec s) ∧
    parse_input (pystr "Eggs, MILK ,Tomato") =
      [pystr "eggs", pystr "milk", pystr "tomato"] := by
  constructor
  · intro s
    unfold parse_input parseSpec
    refine List.map_congr_left ?_
    intro p hp
    rw [List.mem_filter] at hp
    obtain ⟨hp1, _⟩ := hp
    rw [List.mem_map] at hp1
    obtain ⟨q, _, rfl⟩ := hp1
    exact normalize_pystrip q
  · decide

/-- C6: whenever parsing yields zero ingredients, the program prints exactly
`"No ingredients provided. Exiting."`, exits with code 0, and prints neither
the echo line nor any match section (the Matcher is never reached). -/
theorem C6_early_exit (arg : Option PyStr) (line : PyStr)
    (h : parse_input (resolveInput arg line) = []) :
    mainRun arg line = ([pystr "No ingredients provided. Exiting."], 0) := by
  simp [mainRun, h]

/-- Witness for C6: no command line argument and the whitespace-and-commas
input line `"  ,  ,"`. -/
theorem C6_early_exit_witness :
    parse_input (resolveInput none (pystr "  ,  ,")) = [] ∧
    mainRun none (pystr "  ,  ,") =
      ([pystr "No ingredients provided. Exiting."], 0) :=
  ⟨by decide, C6_early_exit none (pystr "  ,  ,") (by decide)⟩

/-- C7 fails as stated: the entry's `score` field holds the 3-decimal
rounded value, not the exact ratio.  At available `["egg", "milk"]` and
catalog `[Pancakes]` the single partially matched entry has
`score = 0.333 = 333/1000` while `matched / total = 2/6 = 1/3`. -/
theorem C7_counterexample :
    (find_matches availEggMilk [pancakes]).2 = [mkEntry availEggMilk pancakes] ∧
    (mkEntry availEggMilk pancakes).score = mkRat 333 1000 ∧
    (mkEntry availEggMilk pancakes).matched = 2 ∧
    (mkEntry availEggMilk pancakes).total = 6 ∧
    mkRat 333 1000 ≠
      ((mkEntry availEggMilk pancakes).matched : ℚ) /
        ((mkEntry availEggMilk pancakes).total : ℚ) := by
  refine ⟨?_, by decide, by decide, by decide, ?_⟩
  · simp only [find_matches]
    rw [show List.filter (fun r =>
        !decide ((score_recipe availEggMilk r).2.1 = (score_recipe availEggMilk r).2.2) &&
          decide (0 < (score_recipe availEggMilk r).2.1)) [pancakes] = [pancakes]
      from by decide]
    simp [List.mergeSort_singleton]
  · rw [show (mkEntry availEggMilk pancakes).matched = 2 from by decide,
      show (mkEntry availEggMilk pancakes).total = 6 from by decide]
    norm_num [Rat.mkRat_eq_div]

/-- C7, amended: every entry in either output list satisfies
`0 ≤ matched ≤ total`, and its `score` field equals the 3-decimal rounding
`round3` of `matched / total` (which is `0.0` when `total = 0`). -/
theorem C7_entry_invariant (a : List PyStr) (rs : List Recipe) (e : Entry)
    (h : e ∈ (find_matches a rs).1 ∨ e ∈ (find_matches a rs).2) :
    e.matched ≤ e.total ∧
    e.score = round3 ((e.matched : ℚ) / (e.total : ℚ)) := by
  have he : ∃ r, r ∈ rs ∧ mkEntry a r = e := by
    rcases h with h | h
    · obtain ⟨r, hr, _, hre⟩ := (mem_full_iff a rs e).mp h
      exact ⟨r, hr, hre⟩
    · obtain ⟨r, hr, _, hre⟩ := (mem_rest_iff a rs e).mp h
      exact ⟨r, hr, hre⟩
  obtain ⟨r, _, rfl⟩ := he
  refine ⟨matched_le_total a r, ?_⟩
  exact congrArg round3 (score_fst_eq_div a r)

/-- Witness for the amended C7 at the Pancakes partial-match entry. -/
theorem C7_entry_invariant_witness :
    (mkEntry availEggMilk pancakes ∈ (find_matches availEggMilk [pancakes]).1 ∨
      mkEntry availEggMilk pancakes ∈ (find_matches availEggMilk [pancakes]).2) ∧
    ((mkEntry availEggMilk pancakes).matched ≤ (mkEntry availEggMilk pancakes).total ∧
      (mkEntry availEggMilk pancakes).score =
        round3 (((mkEntry availEggMilk pancakes).matched : ℚ) /
          ((mkEntry availEggMilk pancakes).total : ℚ))) :=
  ⟨Or.inr (by simp only [find_matches]; rw [List.mem_mergeSort]; decide),
   C7_entry_invariant availEggMilk [pancakes] (mkEntry availEggMilk pancakes)
     (Or.inr (by simp only [find_matches]; rw [List.mem_mergeSort]; decide))⟩

/-- C8: for every entry of the partially-matched list, the printed
percentage `int(score * 100)` equals `⌊score * 100⌋` (truncation towards
zero coincides with floor on these non-negative scores), rendered alongside
`matched/total`, the missing count, and the recipe's original ingredient
list comma-joined in authored order with original casing. -/
theorem C8_percentage (a : List PyStr) (rs : List Recipe) (e : Entry)
    (h : e ∈ (find_matches a rs).2) :
    pctOf e.score = ⌊e.score * (100 : ℚ)⌋ ∧
    part_line1 e =
      pystr "- " ++ e.name ++ pystr ": " ++ intRepr ⌊e.score * (100 : ℚ)⌋ ++
        pystr "% (" ++ natRepr e.matched ++ pystr "/" ++ natRepr e.total ++
        pystr ") -- missing " ++ natRepr e.missing ++ pystr " ingredient(s)" ∧
    part_line2 e = pystr "    Ingredients: " ++ joinComma e.ingredients ∧
    (∃ r, r ∈ rs ∧ e.name = r.name ∧ e.ingredients = r.ingredients) ∧
    e.missing = e.total - e.matched := by
  obtain ⟨r, hr, _, rfl⟩ := (mem_rest_iff a rs e).mp h
  have hq : 0 ≤ (mkEntry a r).score :=
    round3_nonneg (score_fst_nonneg a r)
  have hpct : pctOf (mkEntry a r).score = ⌊(mkEntry a r).score * (100 : ℚ)⌋ := by
    unfold pctOf
    exact pyTrunc_eq_floor (mul_nonneg hq (by norm_num))
  refine ⟨hpct, ?_, rfl, ⟨r, hr, rfl, rfl⟩, rfl⟩
  unfold part_line1
  rw [hpct]

/-- Witness for C8 at the Pancakes partial-match entry. -/
theorem C8_percentage_witness :
    mkEntry availEggMilk pancakes ∈ (find_matches availEggMilk [pancakes]).2 ∧
    pctOf (mkEntry availEggMilk pancakes).score =
      ⌊(mkEntry availEggMilk pancakes).score * (100 : ℚ)⌋ :=
  ⟨by simp only [find_matches]; rw [List.mem_mergeSort]; decide,
   (C8_percentage availEggMilk [pancakes] (mkEntry availEggMilk pancakes)
     (by simp only [find_matches]; rw [List.mem_mergeSort]; decide)).1⟩

/-- C9: matching uses set semantics on the available ingredients — two
available lists with the same members (regardless of order or duplicates)
give identical `score_recipe` results on every recipe and identical
`find_matches` results on every catalog. -/
theorem C9_set_semantics (a₁ a₂ : List PyStr) (rs : List Recipe)
    (h : ∀ x, x ∈ a₁ ↔ x ∈ a₂) :
    (∀ r, score_recipe a₁ r = score_recipe a₂ r) ∧
    find_matches a₁ rs = find_matches a₂ rs := by
  have hm : ∀ r, matchedCount a₁ r = matchedCount a₂ r := fun r =>
    List.countP_congr fun x _ => by simpa using h x
  have hs : ∀ r, score_recipe a₁ r = score_recipe a₂ r := fun r => by
    unfold score_recipe
    rw [hm r]
  have hent : ∀ r, mkEntry a₁ r = mkEntry a₂ r := fun r => by
    unfold mkEntry
    rw [hs r]
  refine ⟨hs, ?_⟩
  have hfun1 : (fun r : Recipe =>
      decide ((score_recipe a₁ r).2.1 = (score_recipe a₁ r).2.2)) =
      (fun r : Recipe =>
        decide ((score_recipe a₂ r).2.1 = (score_recipe a₂ r).2.2)) := by
    funext r
    rw [hs r]
  have hfun2 : (fun r : Recipe =>
      !decide ((score_recipe a₁ r).2.1 = (score_recipe a₁ r).2.2) &&
        decide (0 < (score_recipe a₁ r).2.1)) =
      (fun r : Recipe =>
        !decide ((score_recipe a₂ r).2.1 = (score_recipe a₂ r).2.2) &&
          decide (0 < (score_recipe a₂ r).2.1)) := by
    funext r
    rw [hs r]
  have hfun3 : mkEntry a₁ = mkEntry a₂ := funext hent
  unfold find_matches
  rw [hfun1, hfun2, hfun3]

/-- Witness for C9: `["egg", "egg"]` versus `["egg"]` on the catalog
`[Omelette]`. -/
theorem C9_set_semantics_witness :
    (∀ x, x ∈ [pystr "egg", pystr "egg"] ↔ x ∈ [pystr "egg"]) ∧
    ((∀ r, score_recipe [pystr "egg", pystr "egg"] r =
        score_recipe [pystr "egg"] r) ∧
      find_matches [pystr "egg", pystr "egg"] [omelette] =
        find_matches [pystr "egg"] [omelette]) :=
  ⟨fun x => by simp,
   C9_set_semantics [pystr "egg", pystr "egg"] [pystr "egg"] [omelette]
     (fun x => by simp)⟩

/-- C10: `normalize` is idempotent, and every token produced by
`parse_input` is non-empty and fixed by `normalize`. -/
theorem C10_normalize_idem :
    (∀ s : PyStr, normalize (normalize s) = normalize s) ∧
    (∀ s t : PyStr, t ∈ parse_input s → t ≠ [] ∧ normalize t = t) := by
  refine ⟨normalize_idem, ?_⟩
  intro s t ht
  unfold parse_input at ht
  rw [List.mem_map] at ht
  obtain ⟨p, hp, rfl⟩ := ht
  rw [List.mem_filter] at hp
  obtain ⟨hp1, hp2⟩ := hp
  rw [List.mem_map] at hp1
  obtain ⟨q, _, rfl⟩ := hp1
  have hne : pystrip q ≠ [] := by
    simpa using hp2
  constructor
  · intro hc
    rw [normalize_pystrip] at hc
    have hlen := pylower_length (pystrip q)
    rw [hc] at hlen
    exact hne (List.length_eq_zero.mp hlen.symm)
  · exact normalize_idem (pystrip q)

/-- Witness for C10 at `parse_input("Eggs, MILK")` and its token `"milk"`. -/
theorem C10_normalize_idem_witness :
    pystr "milk" ∈ parse_input (pystr "Eggs, MILK") ∧
    (pystr "milk" ≠ [] ∧ normalize (pystr "milk") = pystr "milk") :=
  ⟨by decide, C10_normalize_idem.2 (pystr "Eggs, MILK") (pystr "milk") (by decide)⟩

end RecipeFinder
